import Mathlib

/-!
Shallow embedding of the Synacor virtual machine (src/src/machine.rs,
src/src/instruction.rs).  Machine words are modelled as `Nat`; u16
wrap-around is written explicitly as `% 65536` where the Rust code performs
16-bit arithmetic, and 15-bit masking as `&&& 0x7FFF`, exactly where the
source applies it.  Fallible `Vec` indexing is modelled by `List.get?`; an
out-of-bounds index in the Rust code (a panic) is represented by the
distinguished outcome `StepResult.panicked`, which carries the state as it
was at the moment of the panic.
-/

namespace Synacor

/-- Opcodes, from `instruction.rs` (`enum Operation`). -/
inductive Operation where
  | Halt | Set | Push | Pop | Eq | Gt | Jmp | Jt | Jf
  | Add | Mult | Mod | And | Or | Not | Rmem | Wmem
  | Call | Ret | Out | In | Noop
  | Error (v : Nat)
  deriving DecidableEq, Repr

/-- `impl From<u16> for Operation` in instruction.rs. -/
def Operation.fromWord (value : Nat) : Operation :=
  match value with
  | 0 => .Halt
  | 1 => .Set
  | 2 => .Push
  | 3 => .Pop
  | 4 => .Eq
  | 5 => .Gt
  | 6 => .Jmp
  | 7 => .Jt
  | 8 => .Jf
  | 9 => .Add
  | 10 => .Mult
  | 11 => .Mod
  | 12 => .And
  | 13 => .Or
  | 14 => .Not
  | 15 => .Rmem
  | 16 => .Wmem
  | 17 => .Call
  | 18 => .Ret
  | 19 => .Out
  | 20 => .In
  | 21 => .Noop
  | v => .Error v

/-- `Operation::operands` in instruction.rs: operand count per opcode,
with the sentinel 0xFFFF for `Error`. -/
def Operation.operands : Operation → Nat
  | .Halt | .Ret | .Noop => 0
  | .Push | .Pop | .Jmp | .Call | .Out | .In => 1
  | .Set | .Jt | .Jf | .Not | .Rmem | .Wmem => 2
  | .Eq | .Gt | .Add | .Mult | .Mod | .And | .Or => 3
  | .Error _ => 0xffff

/-- Operand classification, from `instruction.rs` (`enum ParsedValue`). -/
inductive ParsedValue where
  | Literal (v : Nat)
  | Register (r : Nat)
  | Error (v : Nat)
  deriving DecidableEq, Repr

/-- `impl From<u16> for ParsedValue`: 0..=32767 literal, 32768..=32775
register (minus 32768), anything else an error word. -/
def ParsedValue.fromWord (value : Nat) : ParsedValue :=
  if value ≤ 32767 then .Literal value
  else if value ≤ 32775 then .Register (value - 32768)
  else .Error value

/-- `enum RuntimeError` in machine.rs. -/
inductive RuntimeError where
  | ErrFinished
  | ErrUnknownOperation (v : Nat)
  | ErrUnknownOperand (v : Nat)
  | ErrRegisterExpected
  | ErrInputEmpty
  | ErrStackEmpty
  deriving DecidableEq, Repr

/-- The VM state, from `struct VirtualMachine` in machine.rs.  The Rust
`Vec`s grow at the back: pushes append to the end of the list and pops take
the last element. -/
structure VirtualMachine where
  memory : List Nat
  registers : List Nat
  stack : List Nat
  program_counter : Nat
  input_buffer : List Nat
  deriving DecidableEq, Repr

/-- `VirtualMachine::init_from_sequence`. -/
def init_from_sequence (input_sequence : List Nat) : VirtualMachine :=
  { memory := input_sequence
    registers := List.replicate 8 0
    stack := []
    program_counter := 0
    input_buffer := [] }

/-- `VirtualMachine::dereference`.  The Rust code indexes
`self.registers[r]`, which for decoded operands always has `r ≤ 7`
(`ParsedValue::from` subtracts 32768 from a word in 32768..=32775), so the
`getD` default is never reached on decoded operands. -/
def dereference (vm : VirtualMachine) (val : ParsedValue) : Nat :=
  match val with
  | .Literal x => x
  | .Register r => vm.registers.getD r 0
  | .Error e => e &&& 0x7FFF

/-- Result of one call to `VirtualMachine::operation`.  `panicked` stands
for a Rust panic (out-of-bounds `Vec` index or division by zero); `ok`
carries the executed opcode, the decoded operands and the optional output
character code, matching the `Ok((Operation, Vec<ParsedValue>, Option<char>))`
return type. -/
inductive StepResult where
  | panicked
  | err (e : RuntimeError)
  | ok (op : Operation) (ops : List ParsedValue) (toPrint : Option Nat)
  deriving DecidableEq, Repr

/-- Result of the operand-decoding loop in `operation` (machine.rs lines
111-120): the loop reads `argcount` words starting at `pos`, aborting with
`ErrUnknownOperand` at the first `Error` operand and panicking at the first
out-of-bounds read. -/
inductive DecodeResult where
  | panicked
  | err (v : Nat)
  | ok (ops : List ParsedValue)
  deriving DecidableEq, Repr

/-- The decode loop `for x in old_count + 1..old_count + 1 + argcount`. -/
def decodeOperands (memory : List Nat) (pos count : Nat) : DecodeResult :=
  match count with
  | 0 => .ok []
  | n + 1 =>
    match memory.get? pos with
    | none => .panicked
    | some w =>
      match ParsedValue.fromWord w with
      | .Error v => .err v
      | pv =>
        match decodeOperands memory (pos + 1) n with
        | .ok rest => .ok (pv :: rest)
        | r => r

/-- `VirtualMachine::operation` (machine.rs lines 103-320): fetch, decode,
advance the program counter by `argcount + 1`, then execute.  Notes kept
from the source: the decode loop returns before the program counter is
advanced; `operands[i]` indexing in the execute arms is always in range
because the decode loop yields exactly `argcount` operands, so the `getD`
defaults below are unreachable; `b + c` in `Add` is 16-bit (wrapping)
addition, `Mult` uses a 32-bit intermediate truncated to 16 bits, and `%`
by zero is a Rust panic; `char::from_u32` fails exactly on the surrogate
range for 16-bit inputs, giving the replacement character 0xFFFD. -/
def operation (vm : VirtualMachine) : StepResult × VirtualMachine :=
  match vm.memory.get? vm.program_counter with
  | none => (.panicked, vm)
  | some instrWord =>
    let current := Operation.fromWord instrWord
    let old := vm.program_counter
    let argcount := current.operands
    match decodeOperands vm.memory (old + 1) argcount with
    | .panicked => (.panicked, vm)
    | .err v => (.err (.ErrUnknownOperand v), vm)
    | .ok ops =>
      let vm1 := { vm with program_counter := old + argcount + 1 }
      match current with
      | .Halt => (.err .ErrFinished, { vm1 with program_counter := old })
      | .Set =>
        match ops.getD 0 (.Error 0) with
        | .Literal _ => (.err .ErrRegisterExpected, vm1)
        | .Register r =>
          let val_b := dereference vm1 (ops.getD 1 (.Error 0))
          (.ok current ops none, { vm1 with registers := vm1.registers.set r val_b })
        | .Error e => (.err (.ErrUnknownOperand e), vm1)
      | .Push =>
        match ops.getD 0 (.Error 0) with
        | .Literal l => (.ok current ops none, { vm1 with stack := vm1.stack ++ [l] })
        | .Register r =>
          (.ok current ops none, { vm1 with stack := vm1.stack ++ [vm1.registers.getD r 0] })
        | .Error e => (.err (.ErrUnknownOperand e), vm1)
      | .Pop =>
        match ops.getD 0 (.Error 0) with
        | .Register r =>
          match vm1.stack.getLast? with
          | some val =>
            (.ok current ops none,
              { vm1 with stack := vm1.stack.dropLast
                         registers := vm1.registers.set r (val &&& 0x7fff) })
          | none => (.err .ErrStackEmpty, vm1)
        | .Literal v => (.err (.ErrUnknownOperand v), vm1)
        | .Error v => (.err (.ErrUnknownOperand v), vm1)
      | .Eq =>
        match ops.getD 0 (.Error 0) with
        | .Register a =>
          let b := dereference vm1 (ops.getD 1 (.Error 0))
          let c := dereference vm1 (ops.getD 2 (.Error 0))
          (.ok current ops none,
            { vm1 with registers := vm1.registers.set a (if b = c then 1 else 0) })
        | _ => (.err .ErrRegisterExpected, vm1)
      | .Gt =>
        -- the source's `if let` here has no `else`: a non-register first
        -- operand falls through to the final `Ok` without any state change.
        match ops.getD 0 (.Error 0) with
        | .Register a =>
          let b := dereference vm1 (ops.getD 1 (.Error 0))
          let c := dereference vm1 (ops.getD 2 (.Error 0))
          (.ok current ops none,
            { vm1 with registers := vm1.registers.set a (if c < b then 1 else 0) })
        | _ => (.ok current ops none, vm1)
      | .Jmp =>
        (.ok current ops none,
          { vm1 with program_counter := dereference vm1 (ops.getD 0 (.Error 0)) })
      | .Jt =>
        if dereference vm1 (ops.getD 0 (.Error 0)) ≠ 0 then
          (.ok current ops none,
            { vm1 with program_counter := dereference vm1 (ops.getD 1 (.Error 0)) })
        else (.ok current ops none, vm1)
      | .Jf =>
        if dereference vm1 (ops.getD 0 (.Error 0)) = 0 then
          (.ok current ops none,
            { vm1 with program_counter := dereference vm1 (ops.getD 1 (.Error 0)) })
        else (.ok current ops none, vm1)
      | .Add =>
        match ops.getD 0 (.Error 0) with
        | .Register a =>
          let b := dereference vm1 (ops.getD 1 (.Error 0))
          let c := dereference vm1 (ops.getD 2 (.Error 0))
          (.ok current ops none,
            { vm1 with registers := vm1.registers.set a (((b + c) % 65536) &&& 0x7FFF) })
        | _ => (.err .ErrRegisterExpected, vm1)
      | .Mult =>
        match ops.getD 0 (.Error 0) with
        | .Register a =>
          let b := dereference vm1 (ops.getD 1 (.Error 0))
          let c := dereference vm1 (ops.getD 2 (.Error 0))
          (.ok current ops none,
            { vm1 with registers := vm1.registers.set a (((b * c) % 65536) &&& 0x7FFF) })
        | _ => (.err .ErrRegisterExpected, vm1)
      | .Mod =>
        match ops.getD 0 (.Error 0) with
        | .Register a =>
          let b := dereference vm1 (ops.getD 1 (.Error 0))
          let c := dereference vm1 (ops.getD 2 (.Error 0))
          if c = 0 then (.panicked, vm1)
          else
            (.ok current ops none, { vm1 with registers := vm1.registers.set a (b % c) })
        | _ => (.err .ErrRegisterExpected, vm1)
      | .And =>
        match ops.getD 0 (.Error 0) with
        | .Register a =>
          let b := dereference vm1 (ops.getD 1 (.Error 0))
          let c := dereference vm1 (ops.getD 2 (.Error 0))
          (.ok current ops none, { vm1 with registers := vm1.registers.set a (b &&& c) })
        | _ => (.err .ErrRegisterExpected, vm1)
      | .Or =>
        match ops.getD 0 (.Error 0) with
        | .Register a =>
          let b := dereference vm1 (ops.getD 1 (.Error 0))
          let c := dereference vm1 (ops.getD 2 (.Error 0))
          (.ok current ops none, { vm1 with registers := vm1.registers.set a (b ||| c) })
        | _ => (.err .ErrRegisterExpected, vm1)
      | .Not =>
        match ops.getD 0 (.Error 0) with
        | .Register a =>
          let b := dereference vm1 (ops.getD 1 (.Error 0))
          (.ok current ops none, { vm1 with registers := vm1.registers.set a (b ^^^ 0x7FFF) })
        | _ => (.err .ErrRegisterExpected, vm1)
      | .Rmem =>
        match ops.getD 0 (.Error 0) with
        | .Register a =>
          let b := dereference vm1 (ops.getD 1 (.Error 0))
          -- source guard: `self.memory.len() as u16 >= b` (the u16 cast
          -- truncates the length, and the comparison is not strict).
          if b ≤ vm1.memory.length % 65536 then
            match vm1.memory.get? b with
            | some v =>
              (.ok current ops none, { vm1 with registers := vm1.registers.set a v })
            | none => (.panicked, vm1)
          else
            (.ok current ops none, { vm1 with registers := vm1.registers.set a 0 })
        | _ => (.err .ErrRegisterExpected, vm1)
      | .Wmem =>
        let a := dereference vm1 (ops.getD 0 (.Error 0))
        let b := dereference vm1 (ops.getD 1 (.Error 0))
        -- source guard: resize only when `self.memory.len() < a`.
        if vm1.memory.length < a then
          let mem := vm1.memory ++ List.replicate (a + 1 - vm1.memory.length) 0
          (.ok current ops none, { vm1 with memory := mem.set a b })
        else if a < vm1.memory.length then
          (.ok current ops none, { vm1 with memory := vm1.memory.set a b })
        else
          -- a = memory length: no resize happened and `self.memory[a] = b`
          -- indexes out of bounds.
          (.panicked, vm1)
      | .Call =>
        match ops.getD 0 (.Error 0) with
        | .Error a => (.err (.ErrUnknownOperand a), vm1)
        | pv =>
          (.ok current ops none,
            { vm1 with stack := vm1.stack ++ [vm1.program_counter]
                       program_counter := dereference vm1 pv })
      | .Ret =>
        match vm1.stack.getLast? with
        | some v =>
          (.ok current ops none,
            { vm1 with stack := vm1.stack.dropLast, program_counter := v })
        | none => (.err .ErrStackEmpty, vm1)
      | .Out =>
        let v := dereference vm1 (ops.getD 0 (.Error 0))
        let c := if 0xD800 ≤ v ∧ v ≤ 0xDFFF then 0xFFFD else v
        (.ok current ops (some c), vm1)
      | .In =>
        match ops.getD 0 (.Error 0) with
        | .Literal _ => (.err .ErrRegisterExpected, vm1)
        | op0 =>
          let register_number := match op0 with | .Register x => x | _ => 0xff
          match vm1.input_buffer.getLast? with
          | some ch =>
            (.ok current ops none,
              { vm1 with registers := vm1.registers.set register_number ch
                         input_buffer := vm1.input_buffer.dropLast })
          | none => (.err .ErrInputEmpty, { vm1 with program_counter := old })
      | .Noop => (.ok current ops none, vm1)
      | .Error _ => (.err (.ErrUnknownOperation instrWord), vm1)

/-- The controller's reaction to `ErrInputEmpty` (machine.rs lines
451-460): the received string's ASCII characters are masked to 7 bits and
appended to the input buffer in reverse order. -/
def extendInput (vm : VirtualMachine) (new_input : List Char) : VirtualMachine :=
  { vm with input_buffer :=
      vm.input_buffer ++
        (((new_input.filter fun ch => ch.toNat ≤ 0x7f).map fun ch => ch.toNat &&& 0x7f).reverse) }

/-- `enum RuntimeState` in machine.rs. -/
inductive RuntimeState where
  | Running
  | Paused
  | PauseAfterSteps (n : Nat)
  | PauseAfterAddress (addr : Nat)
  | Terminated
  deriving DecidableEq, Repr

/-- The run-state update performed after each executed instruction
(machine.rs lines 470-486).  `pc0` is the snapshotted pre-execute program
counter as a 16-bit value (`register_snapshot` masks with 0xffff) and
`instr` the word that was fetched from that address.  In the
`PauseAfterAddress` arm the source computes
`instr_stop = instr_start + Operation::from(instr).operands()` in u16
arithmetic (wrapping) and pauses when
`instr_start >= addr && addr < instr_stop`. -/
def updateRunState (rs : RuntimeState) (pc0 instr : Nat) : RuntimeState :=
  match rs with
  | .Running => .Running
  | .Paused => .Paused
  | .PauseAfterSteps 1 => .PauseAfterSteps 1
  | .PauseAfterSteps 0 => .PauseAfterSteps 0
  | .PauseAfterSteps x => .PauseAfterSteps (x - 1)
  | .PauseAfterAddress addr =>
    let a := addr % 65536
    let instr_start := pc0
    let instr_stop := (pc0 + (Operation.fromWord instr).operands) % 65536
    if a ≤ instr_start ∧ a < instr_stop then .Paused else .PauseAfterAddress addr
  | .Terminated => .Terminated

/-- VM-state-touching events of the controller loop `run_program`: an
interpreter step, the `SetProgramCounter` and `SetRegister` control
messages (machine.rs lines 371-380), and the delivery of user input after
an `ErrInputEmpty` stall.  The remaining control messages
(Run/Pause/steps/delay/save/trace) only touch the controller's own state,
never the `VirtualMachine` fields. -/
inductive ControlEvent where
  | step
  | setProgramCounter (addr : Nat)
  | setRegister (reg value : Nat)
  | provideInput (s : List Char)

/-- Effect of one event on the VM state.  `SetRegister` stores the value
as received — the source has no `& 0x7FFF` mask there. -/
def applyEvent (vm : VirtualMachine) (e : ControlEvent) : VirtualMachine :=
  match e with
  | .step => (operation vm).2
  | .setProgramCounter addr => { vm with program_counter := addr }
  | .setRegister reg value =>
    if reg ≤ 7 then { vm with registers := vm.registers.set reg value } else vm
  | .provideInput s => extendInput vm s

def applyEvents (vm : VirtualMachine) (es : List ControlEvent) : VirtualMachine :=
  es.foldl applyEvent vm

/-- The byte-pairing core of `VirtualMachine::init_from_file` (machine.rs
lines 64-75): adjacent bytes `(low, hi)` become the word `hi << 8 | low`.
Itertools' `tuples::<(u8, u8)>()` silently drops an incomplete trailing
pair, hence the two base cases. -/
def loadWords : List Nat → List Nat
  | [] => []
  | [_] => []
  | low :: hi :: rest => ((hi <<< 8) ||| low) :: loadWords rest

/-- Modelled from the spec: the repository has no binary word serializer
under src (`dump_memory_to_file` emits a textual listing); the spec fixes
the external file format as "little-endian 16-bit words, concatenated", so
the inverse of the loader writes each word as its low byte followed by its
high byte. -/
def serializeWords : List Nat → List Nat
  | [] => []
  | w :: rest => (w % 256) :: ((w >>> 8) % 256) :: serializeWords rest

/-- The joint state invariant used for the register-bound claim: all
registers, all memory words and all buffered input characters are 15-bit
values. -/
def StInv (vm : VirtualMachine) : Prop :=
  (∀ x ∈ vm.registers, x ≤ 32767) ∧ (∀ x ∈ vm.memory, x ≤ 32767) ∧
  (∀ x ∈ vm.input_buffer, x ≤ 32767)

/-- Side condition on control events: `SetRegister` carries a 15-bit
value (the code applies no mask, so this must be assumed). -/
def eventOK : ControlEvent → Prop
  | .setRegister _ value => value ≤ 32767
  | _ => True

/-! ### Helper lemmas -/

theorem lor_lo (hi low : Nat) (hl : low < 256) : ((hi <<< 8) ||| low) % 256 = low := by
  apply Nat.eq_of_testBit_eq
  intro i
  rw [show (256 : Nat) = 2 ^ 8 by norm_num, Nat.testBit_mod_two_pow]
  rcases Nat.lt_or_ge i 8 with h | h
  · simp [h, Nat.testBit_lor, Nat.testBit_shiftLeft, Nat.not_le.mpr h]
  · have h2 : (256 : Nat) ≤ 2 ^ i := by
      calc (256 : Nat) = 2 ^ 8 := by norm_num
        _ ≤ 2 ^ i := Nat.pow_le_pow_right (by norm_num) h
    have hlow : low.testBit i = false := Nat.testBit_lt_two_pow (lt_of_lt_of_le hl h2)
    simp [Nat.not_lt.mpr h, hlow]

theorem lor_hi (hi low : Nat) (hl : low < 256) (hh : hi < 256) :
    (((hi <<< 8) ||| low) >>> 8) % 256 = hi := by
  apply Nat.eq_of_testBit_eq
  intro i
  rw [show (256 : Nat) = 2 ^ 8 by norm_num, Nat.testBit_mod_two_pow]
  rcases Nat.lt_or_ge i 8 with h | h
  · have hlow : low.testBit (i + 8) = false := by
      apply Nat.testBit_lt_two_pow
      have h2 : (256 : Nat) ≤ 2 ^ (i + 8) := by
        calc (256 : Nat) = 2 ^ 8 := by norm_num
          _ ≤ 2 ^ (i + 8) := Nat.pow_le_pow_right (by norm_num) (by omega)
      omega
    simp [h, Nat.testBit_shiftRight, Nat.testBit_lor, Nat.testBit_shiftLeft, hlow,
      Nat.add_comm 8 i]
  · have h2 : (256 : Nat) ≤ 2 ^ i := by
      calc (256 : Nat) = 2 ^ 8 := by norm_num
        _ ≤ 2 ^ i := Nat.pow_le_pow_right (by norm_num) h
    have hhi : hi.testBit i = false := Nat.testBit_lt_two_pow (lt_of_lt_of_le hh h2)
    simp [Nat.not_lt.mpr h, hhi]

theorem mem_of_getLast_eq {l : List Nat} {a : Nat} (h : l.getLast? = some a) : a ∈ l := by
  induction l with
  | nil => simp [List.getLast?] at h
  | cons x xs ih =>
    cases xs with
    | nil => simp_all [List.getLast?]
    | cons y ys =>
      rw [List.getLast?_cons_cons] at h
      exact List.mem_cons_of_mem x (ih h)

theorem decodeOperands_no_panic (memory : List Nat) :
    ∀ (pos count : Nat), pos + count ≤ memory.length →
      decodeOperands memory pos count ≠ .panicked := by
  intro pos count
  induction count generalizing pos with
  | zero => simp [decodeOperands]
  | succ n ih =>
    intro h
    unfold decodeOperands
    cases hg : memory.get? pos with
    | none =>
      have := List.get?_eq_none.mp hg
      omega
    | some w =>
      cases hw : ParsedValue.fromWord w with
      | Error v => simp [hw]
      | Literal v =>
        cases hr : decodeOperands memory (pos + 1) n with
        | panicked => exact absurd hr (ih (pos + 1) (by omega))
        | err v2 => simp [hw, hr]
        | ok ops => simp [hw, hr]
      | Register r =>
        cases hr : decodeOperands memory (pos + 1) n with
        | panicked => exact absurd hr (ih (pos + 1) (by omega))
        | err v2 => simp [hw, hr]
        | ok ops => simp [hw, hr]

theorem fromWord_literal_le {w v : Nat} (h : ParsedValue.fromWord w = .Literal v) : v ≤ 32767 := by
  unfold ParsedValue.fromWord at h
  split_ifs at h
  all_goals simp_all

theorem decodeOperands_wf (memory : List Nat) :
    ∀ (pos count : Nat) (ops : List ParsedValue),
      decodeOperands memory pos count = .ok ops →
      ∀ pv ∈ ops, ∀ v, pv = .Literal v → v ≤ 32767 := by
  intro pos count
  induction count generalizing pos with
  | zero =>
    intro ops h pv hpv v hlit
    simp [decodeOperands] at h
    subst h
    simp at hpv
  | succ n ih =>
    intro ops h pv hpv v hlit
    unfold decodeOperands at h
    split at h
    · cases h
    · split at h
      · cases h
      · split at h
        · rename_i w hg hne rest hrec
          cases h
          rcases List.mem_cons.mp hpv with rfl | hmem
          · exact fromWord_literal_le hlit
          · exact ih (pos + 1) rest hrec pv hmem v hlit
        · rename_i hnotok
          exact absurd h (hnotok ops)

theorem getD_le (l : List Nat) (k i d : Nat) (h : ∀ x ∈ l, x ≤ k) (hd : d ≤ k) :
    l.getD i d ≤ k := by
  induction l generalizing i with
  | nil => simpa [List.getD]
  | cons a as ih =>
    cases i with
    | zero =>
      rw [List.getD_cons_zero]
      exact h a (by simp)
    | succ j =>
      rw [List.getD_cons_succ]
      exact ih j fun x hx => h x (List.mem_cons_of_mem a hx)

theorem getD_mem_or (l : List ParsedValue) (i : Nat) (d : ParsedValue) :
    l.getD i d ∈ l ∨ l.getD i d = d := by
  induction l generalizing i with
  | nil => simp [List.getD]
  | cons a as ih =>
    cases i with
    | zero =>
      rw [List.getD_cons_zero]
      exact Or.inl (by simp)
    | succ j =>
      rw [List.getD_cons_succ]
      rcases ih j with h | h
      · exact Or.inl (List.mem_cons_of_mem a h)
      · exact Or.inr h

theorem set_le (l : List Nat) (k i x : Nat) (h : ∀ y ∈ l, y ≤ k) (hx : x ≤ k) :
    ∀ y ∈ l.set i x, y ≤ k := fun y hy =>
  (List.mem_or_eq_of_mem_set hy).elim (h y) fun e => e ▸ hx

theorem deref_getD_le (vm : VirtualMachine) (ops : List ParsedValue) (i : Nat)
    (hr : ∀ x ∈ vm.registers, x ≤ 32767)
    (hlit : ∀ pv ∈ ops, ∀ v, pv = .Literal v → v ≤ 32767) :
    dereference vm (ops.getD i (.Error 0)) ≤ 32767 := by
  rcases getD_mem_or ops i (.Error 0) with hmem | hdef
  · cases hpv : ops.getD i (.Error 0) with
    | Literal v => exact hlit _ (hpv ▸ hmem) v rfl
    | Register r =>
      exact getD_le vm.registers 32767 r 0 hr (by omega)
    | Error e => exact Nat.and_le_right
  · rw [hdef]
    exact Nat.and_le_right

theorem or_le_32767 {a b : Nat} (ha : a ≤ 32767) (hb : b ≤ 32767) : a ||| b ≤ 32767 := by
  have h15 : (2 : Nat) ^ 15 = 32768 := by norm_num
  have := Nat.or_lt_two_pow (n := 15) (x := a) (y := b) (by omega) (by omega)
  omega

theorem xor_le_32767 {a b : Nat} (ha : a ≤ 32767) (hb : b ≤ 32767) : a ^^^ b ≤ 32767 := by
  have h15 : (2 : Nat) ^ 15 = 32768 := by norm_num
  have := Nat.xor_lt_two_pow (n := 15) (x := a) (y := b) (by omega) (by omega)
  omega

theorem operation_preserves_inv (vm : VirtualMachine) (h : StInv vm) :
    StInv (operation vm).2 := by
  obtain ⟨hr, hm, hb⟩ := h
  cases hfetch : vm.memory.get? vm.program_counter with
  | none =>
    simp only [operation, hfetch]
    exact ⟨hr, hm, hb⟩
  | some w =>
    cases hdec : decodeOperands vm.memory (vm.program_counter + 1)
        (Operation.fromWord w).operands with
    | panicked =>
      simp only [operation, hfetch, hdec]
      exact ⟨hr, hm, hb⟩
    | err v =>
      simp only [operation, hfetch, hdec]
      exact ⟨hr, hm, hb⟩
    | ok ops =>
      have hlit := decodeOperands_wf vm.memory (vm.program_counter + 1) _ ops hdec
      cases hcur : Operation.fromWord w with
      | Halt =>
        simp only [hcur] at hdec
        simp only [operation, hfetch, hcur, hdec]
        exact ⟨hr, hm, hb⟩
      | Set =>
        simp only [hcur] at hdec
        simp only [operation, hfetch, hcur, hdec]
        cases hop0 : ops.getD 0 (.Error 0) with
        | Literal l => exact ⟨hr, hm, hb⟩
        | Register r =>
          exact ⟨set_le _ _ _ _ hr (deref_getD_le _ ops 1 hr hlit), hm, hb⟩
        | Error e => exact ⟨hr, hm, hb⟩
      | Push =>
        simp only [hcur] at hdec
        simp only [operation, hfetch, hcur, hdec]
        cases hop0 : ops.getD 0 (.Error 0) with
        | Literal l => exact ⟨hr, hm, hb⟩
        | Register r => exact ⟨hr, hm, hb⟩
        | Error e => exact ⟨hr, hm, hb⟩
      | Pop =>
        simp only [hcur] at hdec
        simp only [operation, hfetch, hcur, hdec]
        cases hop0 : ops.getD 0 (.Error 0) with
        | Literal l => exact ⟨hr, hm, hb⟩
        | Register r =>
          cases hst : vm.stack.getLast? with
          | some val => exact ⟨set_le _ _ _ _ hr Nat.and_le_right, hm, hb⟩
          | none => exact ⟨hr, hm, hb⟩
        | Error e => exact ⟨hr, hm, hb⟩
      | Eq =>
        simp only [hcur] at hdec
        simp only [operation, hfetch, hcur, hdec]
        cases hop0 : ops.getD 0 (.Error 0) with
        | Literal l => exact ⟨hr, hm, hb⟩
        | Register r =>
          refine ⟨set_le _ _ _ _ hr ?_, hm, hb⟩
          split <;> omega
        | Error e => exact ⟨hr, hm, hb⟩
      | Gt =>
        simp only [hcur] at hdec
        simp only [operation, hfetch, hcur, hdec]
        cases hop0 : ops.getD 0 (.Error 0) with
        | Literal l => exact ⟨hr, hm, hb⟩
        | Register r =>
          refine ⟨set_le _ _ _ _ hr ?_, hm, hb⟩
          split <;> omega
        | Error e => exact ⟨hr, hm, hb⟩
      | Jmp =>
        simp only [hcur] at hdec
        simp only [operation, hfetch, hcur, hdec]
        exact ⟨hr, hm, hb⟩
      | Jt =>
        simp only [hcur] at hdec
        simp only [operation, hfetch, hcur, hdec]
        split <;> exact ⟨hr, hm, hb⟩
      | Jf =>
        simp only [hcur] at hdec
        simp only [operation, hfetch, hcur, hdec]
        split <;> exact ⟨hr, hm, hb⟩
      | Add =>
        simp only [hcur] at hdec
        simp only [operation, hfetch, hcur, hdec]
        cases hop0 : ops.getD 0 (.Error 0) with
        | Literal l => exact ⟨hr, hm, hb⟩
        | Register r => exact ⟨set_le _ _ _ _ hr Nat.and_le_right, hm, hb⟩
        | Error e => exact ⟨hr, hm, hb⟩
      | Mult =>
        simp only [hcur] at hdec
        simp only [operation, hfetch, hcur, hdec]
        cases hop0 : ops.getD 0 (.Error 0) with
        | Literal l => exact ⟨hr, hm, hb⟩
        | Register r => exact ⟨set_le _ _ _ _ hr Nat.and_le_right, hm, hb⟩
        | Error e => exact ⟨hr, hm, hb⟩
      | Mod =>
        simp only [hcur] at hdec
        simp only [operation, hfetch, hcur, hdec]
        cases hop0 : ops.getD 0 (.Error 0) with
        | Literal l => exact ⟨hr, hm, hb⟩
        | Register r =>
          dsimp only
          by_cases hc : dereference { vm with program_counter :=
              vm.program_counter + Operation.Mod.operands + 1 }
              (ops.getD 2 (ParsedValue.Error 0)) = 0
          · rw [if_pos hc]
            exact ⟨hr, hm, hb⟩
          · rw [if_neg hc]
            refine ⟨set_le _ _ _ _ hr ?_, hm, hb⟩
            exact le_trans (Nat.mod_le _ _) (deref_getD_le _ ops 1 hr hlit)
        | Error e => exact ⟨hr, hm, hb⟩
      | And =>
        simp only [hcur] at hdec
        simp only [operation, hfetch, hcur, hdec]
        cases hop0 : ops.getD 0 (.Error 0) with
        | Literal l => exact ⟨hr, hm, hb⟩
        | Register r =>
          exact ⟨set_le _ _ _ _ hr (le_trans Nat.and_le_left (deref_getD_le _ ops 1 hr hlit)),
            hm, hb⟩
        | Error e => exact ⟨hr, hm, hb⟩
      | Or =>
        simp only [hcur] at hdec
        simp only [operation, hfetch, hcur, hdec]
        cases hop0 : ops.getD 0 (.Error 0) with
        | Literal l => exact ⟨hr, hm, hb⟩
        | Register r =>
          exact ⟨set_le _ _ _ _ hr
            (or_le_32767 (deref_getD_le _ ops 1 hr hlit) (deref_getD_le _ ops 2 hr hlit)),
            hm, hb⟩
        | Error e => exact ⟨hr, hm, hb⟩
      | Not =>
        simp only [hcur] at hdec
        simp only [operation, hfetch, hcur, hdec]
        cases hop0 : ops.getD 0 (.Error 0) with
        | Literal l => exact ⟨hr, hm, hb⟩
        | Register r =>
          exact ⟨set_le _ _ _ _ hr
            (xor_le_32767 (deref_getD_le _ ops 1 hr hlit) (by omega)),
            hm, hb⟩
        | Error e => exact ⟨hr, hm, hb⟩
      | Rmem =>
        simp only [hcur] at hdec
        simp only [operation, hfetch, hcur, hdec]
        cases hop0 : ops.getD 0 (.Error 0) with
        | Literal l => exact ⟨hr, hm, hb⟩
        | Register r =>
          dsimp only
          by_cases hc : dereference { vm with program_counter :=
              vm.program_counter + Operation.Rmem.operands + 1 }
              (ops.getD 1 (ParsedValue.Error 0)) ≤ vm.memory.length % 65536
          · rw [if_pos hc]
            cases hget : vm.memory.get? (dereference { vm with program_counter :=
                vm.program_counter + Operation.Rmem.operands + 1 }
                (ops.getD 1 (ParsedValue.Error 0))) with
            | some v => exact ⟨set_le _ _ _ _ hr (hm v (List.get?_mem hget)), hm, hb⟩
            | none => exact ⟨hr, hm, hb⟩
          · rw [if_neg hc]
            exact ⟨set_le _ _ _ _ hr (by omega), hm, hb⟩
        | Error e => exact ⟨hr, hm, hb⟩
      | Wmem =>
        simp only [hcur] at hdec
        simp only [operation, hfetch, hcur, hdec]
        split
        · refine ⟨hr, ?_, hb⟩
          apply set_le _ _ _ _ ?_ (deref_getD_le _ ops 1 hr hlit)
          intro y hy
          rcases List.mem_append.mp hy with hy | hy
          · exact hm y hy
          · rw [List.eq_of_mem_replicate hy]
            omega
        · split
          · exact ⟨hr, set_le _ _ _ _ hm (deref_getD_le _ ops 1 hr hlit), hb⟩
          · exact ⟨hr, hm, hb⟩
      | Call =>
        simp only [hcur] at hdec
        simp only [operation, hfetch, hcur, hdec]
        cases hop0 : ops.getD 0 (.Error 0) with
        | Literal l => exact ⟨hr, hm, hb⟩
        | Register r => exact ⟨hr, hm, hb⟩
        | Error e => exact ⟨hr, hm, hb⟩
      | Ret =>
        simp only [hcur] at hdec
        simp only [operation, hfetch, hcur, hdec]
        cases hst : vm.stack.getLast? with
        | some val => exact ⟨hr, hm, hb⟩
        | none => exact ⟨hr, hm, hb⟩
      | Out =>
        simp only [hcur] at hdec
        simp only [operation, hfetch, hcur, hdec]
        exact ⟨hr, hm, hb⟩
      | In =>
        simp only [hcur] at hdec
        simp only [operation, hfetch, hcur, hdec]
        cases hop0 : ops.getD 0 (.Error 0) with
        | Literal l => exact ⟨hr, hm, hb⟩
        | Register r =>
          cases hin : vm.input_buffer.getLast? with
          | some ch =>
            refine ⟨set_le _ _ _ _ hr (hb ch (mem_of_getLast_eq hin)), hm, ?_⟩
            exact fun x hx => hb x (List.dropLast_subset _ hx)
          | none => exact ⟨hr, hm, hb⟩
        | Error e =>
          cases hin : vm.input_buffer.getLast? with
          | some ch =>
            refine ⟨set_le _ _ _ _ hr (hb ch (mem_of_getLast_eq hin)), hm, ?_⟩
            exact fun x hx => hb x (List.dropLast_subset _ hx)
          | none => exact ⟨hr, hm, hb⟩
      | Noop =>
        simp only [hcur] at hdec
        simp only [operation, hfetch, hcur, hdec]
        exact ⟨hr, hm, hb⟩
      | Error v =>
        simp only [hcur] at hdec
        simp only [operation, hfetch, hcur, hdec]
        exact ⟨hr, hm, hb⟩

theorem applyEvent_preserves_inv (vm : VirtualMachine) (e : ControlEvent)
    (h : StInv vm) (he : eventOK e) : StInv (applyEvent vm e) := by
  obtain ⟨hr, hm, hb⟩ := h
  cases e with
  | step => exact operation_preserves_inv vm ⟨hr, hm, hb⟩
  | setProgramCounter addr => exact ⟨hr, hm, hb⟩
  | setRegister reg value =>
    by_cases hreg : reg ≤ 7
    · simp only [applyEvent, if_pos hreg]
      exact ⟨set_le _ _ _ _ hr he, hm, hb⟩
    · simp only [applyEvent, if_neg hreg]
      exact ⟨hr, hm, hb⟩
  | provideInput s =>
    refine ⟨hr, hm, ?_⟩
    intro x hx
    simp only [applyEvent, extendInput] at hx
    rcases List.mem_append.mp hx with hx | hx
    · exact hb x hx
    · rw [List.mem_reverse] at hx
      obtain ⟨ch, hch, rfl⟩ := List.mem_map.mp hx
      exact le_trans Nat.and_le_right (by omega)

theorem applyEvents_preserves_inv (vm : VirtualMachine) (es : List ControlEvent)
    (h : StInv vm) (he : ∀ e ∈ es, eventOK e) : StInv (applyEvents vm es) := by
  induction es generalizing vm with
  | nil => exact h
  | cons e es ih =>
    exact ih (applyEvent vm e) (applyEvent_preserves_inv vm e h (he e (by simp)))
      fun x hx => he x (by simp [hx])

/-! ### Claim theorems -/

/-- C1: the claim says an Rmem whose dereferenced address is at or beyond
the current memory length stores 0.  The source guard is
`self.memory.len() as u16 >= b`, so at `b` equal to the memory length the
guard passes and `self.memory[b]` indexes out of bounds: the program
`[15, 32768, 3]` (Rmem R0 ← mem[3] with memory length 3) panics instead of
storing 0. -/
theorem c1_rmem_at_memory_length_panics :
    operation (init_from_sequence [15, 32768, 3]) =
      (.panicked, { init_from_sequence [15, 32768, 3] with program_counter := 3 }) ∧
    (operation (init_from_sequence [15, 32768, 3])).1 ≠
      .ok .Rmem [.Register 0, .Literal 3] none := by decide

/-- C2: the claim says a Wmem whose target is at or beyond the current
memory length extends memory to `a + 1` and stores.  The source resizes
only when `self.memory.len() < a`, so at `a` equal to the memory length no
resize happens and `self.memory[a] = b` indexes out of bounds: the program
`[16, 3, 7]` (Wmem mem[3] ← 7 with memory length 3) panics.  Strictly
beyond the length (second conjunct, target 5) the extension behaves as
described: zeros up to index 5, then the store. -/
theorem c2_wmem_at_memory_length_panics :
    operation (init_from_sequence [16, 3, 7]) =
      (.panicked, { init_from_sequence [16, 3, 7] with program_counter := 3 }) ∧
    operation (init_from_sequence [16, 5, 7]) =
      (.ok .Wmem [.Literal 5, .Literal 7] none,
        { init_from_sequence [16, 5, 7] with
            memory := [16, 5, 7, 0, 0, 7], program_counter := 3 }) := by decide

/-- C3 counterexample: the claim says every register always holds a value
at most 0x7FFF.  `SetRegister` stores its value without any mask
(machine.rs line 377), so the single control message SetRegister(0, 0x8000)
puts 0x8000 in register 0; Rmem similarly copies an unmasked memory word
(second conjunct: memory word 0x9000 lands in register 0). -/
theorem c3_counterexample :
    (applyEvents (init_from_sequence []) [.setRegister 0 32768]).registers.getD 0 0 = 32768 ∧
    ¬ (applyEvents (init_from_sequence []) [.setRegister 0 32768]).registers.getD 0 0 ≤ 32767 ∧
    (applyEvents (init_from_sequence [15, 32768, 3, 36864]) [.step]).registers.getD 0 0 = 36864 := by
  decide

/-- C3 amended: every register holds a value at most 0x7FFF at every
point, provided every SetRegister control value is itself at most 0x7FFF
and every initial memory word is at most 0x7FFF (the joint invariant keeps
memory 15-bit, so Rmem loads stay bounded).  Without those provisos the
claim fails — see the counterexample: SetRegister stores unmasked and Rmem
copies raw memory words. -/
theorem c3_registers_bounded_masked (prog : List Nat) (events : List ControlEvent)
    (hmem : ∀ x ∈ prog, x ≤ 32767) (he : ∀ e ∈ events, eventOK e) :
    ∀ x ∈ (applyEvents (init_from_sequence prog) events).registers, x ≤ 32767 :=
  (applyEvents_preserves_inv (init_from_sequence prog) events
    ⟨by
      intro x hx
      simp only [init_from_sequence] at hx
      rw [List.eq_of_mem_replicate hx]
      omega,
     hmem,
     by simp [init_from_sequence]⟩
    he).1

theorem c3_witness :
    (applyEvents (init_from_sequence [21]) [.setRegister 0 5, .step]).registers.getD 0 0 ≤ 32767 :=
  c3_registers_bounded_masked [21] [.setRegister 0 5, .step] (by decide)
    (by
      intro e he
      rcases List.mem_cons.mp he with rfl | he2
      · exact (by decide : (5 : Nat) ≤ 32767)
      · rcases List.mem_cons.mp he2 with rfl | he3
        · exact trivial
        · cases he3)
    ((applyEvents (init_from_sequence [21]) [.setRegister 0 5, .step]).registers.getD 0 0)
    (by decide)

/-- C4 counterexample: the claim says a decode error leaves the program
counter at `pc0 + 1 + operand_count`.  On `[1, 32776, 0]` (Set with the
error operand word 0x8008) the step returns UnknownOperand(0x8008) but the
program counter stays at 0, not at 0 + 1 + 2 = 3: the decode loop returns
before the advance on line 122 of machine.rs. -/
theorem c4_counterexample :
    (operation (init_from_sequence [1, 32776, 0])).1 = .err (.ErrUnknownOperand 32776) ∧
    (operation (init_from_sequence [1, 32776, 0])).2.program_counter = 0 ∧
    (0 : Nat) ≠ 0 + 1 + (Operation.fromWord 1).operands := by decide

/-- C4 amended: a step whose operand decoding encounters an Error(v) word
returns UnknownOperand(v) and leaves the whole state — program counter at
`pc0` included — exactly as it was: the decode loop aborts before the
program counter is advanced, and registers, stack and memory are untouched. -/
theorem c4_decode_error_leaves_state (vm : VirtualMachine) (w v : Nat)
    (hfetch : vm.memory.get? vm.program_counter = some w)
    (hdec : decodeOperands vm.memory (vm.program_counter + 1)
      (Operation.fromWord w).operands = .err v) :
    operation vm = (.err (.ErrUnknownOperand v), vm) := by
  unfold operation
  rw [hfetch]
  simp only [hdec]

theorem c4_witness :
    operation (init_from_sequence [1, 32776, 0]) =
      (.err (.ErrUnknownOperand 32776), init_from_sequence [1, 32776, 0]) :=
  c4_decode_error_leaves_state (init_from_sequence [1, 32776, 0]) 1 32776
    (by decide) (by decide)

/-- C5: the claim says a fetched word ≥ 22 yields UnknownOperation(v)
without reading beyond the instruction word.  `Operation::operands` returns
the sentinel 0xFFFF for an unknown opcode and the decode loop uses it as a
real operand count, so on the one-word program `[22]` the decode loop
immediately indexes `memory[1]` out of bounds and panics; with an error
word following (third conjunct, `[22, 40000]`) it returns
UnknownOperand(40000) instead of UnknownOperation(22). -/
theorem c5_unknown_opcode_reads_past_instruction :
    operation (init_from_sequence [22]) = (.panicked, init_from_sequence [22]) ∧
    (operation (init_from_sequence [22])).1 ≠ .err (.ErrUnknownOperation 22) ∧
    operation (init_from_sequence [22, 40000]) =
      (.err (.ErrUnknownOperand 40000), init_from_sequence [22, 40000]) := by decide

/-- C6 counterexample: the claim says every register-destination opcode,
Pop and Gt included, returns RegisterExpected on a Literal first operand.
Pop on `[3, 5]` returns UnknownOperand(5) instead, and Gt on `[5, 3, 1, 2]`
silently succeeds (its `if let` has no else branch). -/
theorem c6_counterexample :
    operation (init_from_sequence [3, 5]) =
      (.err (.ErrUnknownOperand 5), { init_from_sequence [3, 5] with program_counter := 2 }) ∧
    (operation (init_from_sequence [3, 5])).1 ≠ .err .ErrRegisterExpected ∧
    (operation (init_from_sequence [5, 3, 1, 2])).1 =
      .ok .Gt [.Literal 3, .Literal 1, .Literal 2] none := by decide

/-- C6 amended: with a Literal first operand, Set, Eq, Add, Mult, Mod,
And, Or, Not, Rmem and In return RegisterExpected with no state change
besides the normal program-counter advance; Pop instead returns
UnknownOperand(v) with the literal value, and Gt silently succeeds without
writing any register — in all three cases registers, stack, memory and
input buffer are untouched. -/
theorem c6_literal_destination (vm : VirtualMachine) (w l : Nat) (rest : List ParsedValue)
    (hfetch : vm.memory.get? vm.program_counter = some w)
    (hdec : decodeOperands vm.memory (vm.program_counter + 1) (Operation.fromWord w).operands =
      .ok (.Literal l :: rest)) :
    ((Operation.fromWord w = .Set ∨ Operation.fromWord w = .Eq ∨ Operation.fromWord w = .Add ∨
      Operation.fromWord w = .Mult ∨ Operation.fromWord w = .Mod ∨ Operation.fromWord w = .And ∨
      Operation.fromWord w = .Or ∨ Operation.fromWord w = .Not ∨ Operation.fromWord w = .Rmem ∨
      Operation.fromWord w = .In) →
      operation vm = (.err .ErrRegisterExpected,
        { vm with program_counter := vm.program_counter + (Operation.fromWord w).operands + 1 })) ∧
    (Operation.fromWord w = .Pop →
      operation vm = (.err (.ErrUnknownOperand l),
        { vm with program_counter := vm.program_counter + (Operation.fromWord w).operands + 1 })) ∧
    (Operation.fromWord w = .Gt →
      operation vm = (.ok .Gt (.Literal l :: rest) none,
        { vm with program_counter := vm.program_counter + (Operation.fromWord w).operands + 1 })) := by
  refine ⟨fun h => ?_, fun h => ?_, fun h => ?_⟩
  · rcases h with h | h | h | h | h | h | h | h | h | h <;>
    · unfold operation
      rw [hfetch]
      simp only [h] at hdec ⊢
      simp [hdec]
  · unfold operation
    rw [hfetch]
    simp only [h] at hdec ⊢
    simp [hdec]
  · unfold operation
    rw [hfetch]
    simp only [h] at hdec ⊢
    simp [hdec]

theorem c6_witness :
    operation (init_from_sequence [1, 5, 0]) =
      (.err .ErrRegisterExpected, { init_from_sequence [1, 5, 0] with program_counter := 3 }) :=
  (c6_literal_destination (init_from_sequence [1, 5, 0]) 1 5 [.Literal 0]
    (by decide) (by decide)).1 (Or.inl (by decide))

/-- C7 counterexample: the claim says the controller pauses exactly when
the target address lies in `[pc0, pc0 + operand_count]`.  With target
address 1, pre-execute counter 0 and the instruction word 9 (Add, three
operands) the address lies in [0, 3], yet the controller stays in
PauseAfterAddress: the source condition `instr_start >= addr` compares in
the wrong direction. -/
theorem c7_counterexample :
    updateRunState (.PauseAfterAddress 1) 0 9 = .PauseAfterAddress 1 ∧
    updateRunState (.PauseAfterAddress 1) 0 9 ≠ .Paused ∧
    0 ≤ 1 ∧ 1 ≤ 0 + (Operation.fromWord 9).operands := by decide

/-- C7 amended: in run-state PauseAfterAddress(addr) the controller
transitions to Paused after a step exactly when `addr % 2^16` is at or
before the instruction's start `pc0` AND strictly before
`(pc0 + operand_count) % 2^16` — the source's range check is inverted on
the lower bound — and otherwise stays in PauseAfterAddress. -/
theorem c7_pause_check_inverted (addr pc0 instr : Nat) :
    (updateRunState (.PauseAfterAddress addr) pc0 instr = .Paused ↔
      addr % 65536 ≤ pc0 ∧ addr % 65536 < (pc0 + (Operation.fromWord instr).operands) % 65536) ∧
    (updateRunState (.PauseAfterAddress addr) pc0 instr = .Paused ∨
      updateRunState (.PauseAfterAddress addr) pc0 instr = .PauseAfterAddress addr) := by
  simp only [updateRunState]
  constructor
  · split_ifs with h <;> simp [h]
  · split_ifs <;> simp

/-- C8 counterexample: the claim says an odd trailing byte becomes a word
with high byte zero, so a round-trip differs by at most one appended zero
byte.  The loader's `tuples::<(u8, u8)>()` drops the incomplete trailing
pair: on `[1, 2, 3]` the byte 3 is lost and the round-trip yields `[1, 2]`,
which is neither the input nor the input plus a zero byte. -/
theorem c8_counterexample :
    serializeWords (loadWords [1, 2, 3]) = [1, 2] ∧
    serializeWords (loadWords [1, 2, 3]) ≠ [1, 2, 3, 0] ∧
    serializeWords (loadWords [1, 2, 3]) ≠ [1, 2, 3] := by decide

/-- C8 amended: the loader pairs adjacent bytes little-endian
(word = high << 8 | low); on an even-length byte stream loading then
re-serializing is the identity, and on an odd-length stream the final lone
byte is dropped by the loader, so the round-trip equals the input minus
its last byte. -/
theorem c8_roundtrip (bs : List Nat) (hb : ∀ b ∈ bs, b < 256) :
    serializeWords (loadWords bs) = if bs.length % 2 = 0 then bs else bs.dropLast := by
  induction bs using loadWords.induct with
  | case1 => simp [loadWords, serializeWords]
  | case2 x => simp [loadWords, serializeWords]
  | case3 low hi rest ih =>
    have hlow : low < 256 := hb low (by simp)
    have hhi : hi < 256 := hb hi (by simp)
    have ih2 := ih fun b hm => hb b (by simp [hm])
    have hmod : (rest.length + 1 + 1) % 2 = rest.length % 2 := by omega
    simp only [loadWords, serializeWords, lor_lo hi low hlow, lor_hi hi low hlow hhi, ih2,
      List.length_cons, hmod]
    by_cases h : rest.length % 2 = 0
    · simp [h]
    · rw [if_neg h, if_neg h]
      rcases rest with _ | ⟨y, ys⟩
      · simp at h
      · simp [List.dropLast]

theorem c8_witness :
    ((∀ b ∈ [1, 2, 5, 6], b < 256) ∧
      serializeWords (loadWords [1, 2, 5, 6]) = [1, 2, 5, 6]) ∧
    ((∀ b ∈ [1, 2, 3], b < 256) ∧
      serializeWords (loadWords [1, 2, 3]) = [1, 2]) :=
  ⟨⟨by decide, by simpa using c8_roundtrip [1, 2, 5, 6] (by decide)⟩,
   ⟨by decide, by simpa using c8_roundtrip [1, 2, 3] (by decide)⟩⟩

/-- C9: an In step with a register first operand and an empty input buffer
rewinds the program counter to `pc0` and returns InputEmpty with no other
state change (first conjunct: the state is exactly the pre-step state);
the controller appends the ASCII characters of the received string to the
buffer masked to 7 bits and in reverse order (second conjunct); an In step
with a non-empty buffer pops the last buffer element into the register
(third conjunct); consequently after supplying "x\n" the next In stores
0x78 and the following In stores 0x0A (fourth conjunct). -/
theorem c9_in_stall_and_reversed_input :
    (∀ (vm : VirtualMachine) (w r : Nat) (rest : List ParsedValue),
      vm.memory.get? vm.program_counter = some w →
      Operation.fromWord w = .In →
      decodeOperands vm.memory (vm.program_counter + 1) (Operation.fromWord w).operands =
        .ok (.Register r :: rest) →
      vm.input_buffer = [] →
      operation vm = (.err .ErrInputEmpty, vm)) ∧
    (∀ (vm : VirtualMachine) (s : List Char),
      (extendInput vm s).input_buffer =
        vm.input_buffer ++
          (((s.filter fun ch => ch.toNat ≤ 0x7f).map fun ch => ch.toNat &&& 0x7f).reverse)) ∧
    (∀ (vm : VirtualMachine) (w r ch : Nat) (rest : List ParsedValue),
      vm.memory.get? vm.program_counter = some w →
      Operation.fromWord w = .In →
      decodeOperands vm.memory (vm.program_counter + 1) (Operation.fromWord w).operands =
        .ok (.Register r :: rest) →
      vm.input_buffer.getLast? = some ch →
      operation vm = (.ok .In (.Register r :: rest) none,
        { vm with program_counter := vm.program_counter + 1 + 1
                  registers := vm.registers.set r ch
                  input_buffer := vm.input_buffer.dropLast })) ∧
    ((extendInput (init_from_sequence [20, 32768, 20, 32768]) ['x', '\n']).input_buffer =
        [0x0A, 0x78] ∧
      (operation
        (extendInput (init_from_sequence [20, 32768, 20, 32768]) ['x', '\n'])).2.registers.getD
          0 0 = 0x78 ∧
      (operation ((operation
        (extendInput (init_from_sequence [20, 32768, 20, 32768]) ['x', '\n'])).2)).2.registers.getD
          0 0 = 0x0A) := by
  refine ⟨fun vm w r rest hfetch hop hdec hbuf => ?_, fun vm s => rfl,
    fun vm w r ch rest hfetch hop hdec hbuf => ?_, by decide⟩
  · obtain ⟨mem, regs, stk, pc, buf⟩ := vm
    simp only at hfetch hdec hbuf
    subst hbuf
    unfold operation
    rw [hfetch]
    simp only [hop] at hdec ⊢
    simp only [hdec, List.getD_cons_zero]
    simp
  · unfold operation
    rw [hfetch]
    simp only [hop] at hdec ⊢
    simp only [hdec, List.getD_cons_zero]
    simp [hbuf, Operation.operands]

theorem c9_witness :
    operation (init_from_sequence [20, 32768]) =
      (.err .ErrInputEmpty, init_from_sequence [20, 32768]) :=
  c9_in_stall_and_reversed_input.1 (init_from_sequence [20, 32768]) 20 0 []
    (by decide) (by decide) (by decide) (by decide)

/-- C10: the fetch and the operand decode index memory with no bounds
check.  First conjunct: whenever the program counter is at or beyond the
memory length, the step panics — it does not return a runtime error.
Second conjunct: under the precondition `pos + count ≤ memory length` the
decode loop cannot panic.  Third conjunct: a Jmp with a literal target
sets the program counter to the target with no range check whatsoever, so
a target at or beyond the memory length makes the next step hit the first
conjunct.  Fourth conjunct: the SetProgramCounter control message likewise
stores the address unchecked. -/
theorem c10_unchecked_fetch_and_jumps :
    (∀ vm : VirtualMachine, vm.memory.length ≤ vm.program_counter →
      operation vm = (.panicked, vm)) ∧
    (∀ (memory : List Nat) (pos count : Nat), pos + count ≤ memory.length →
      decodeOperands memory pos count ≠ .panicked) ∧
    (∀ (vm : VirtualMachine) (w t : Nat) (rest : List ParsedValue),
      vm.memory.get? vm.program_counter = some w →
      Operation.fromWord w = .Jmp →
      decodeOperands vm.memory (vm.program_counter + 1) (Operation.fromWord w).operands =
        .ok (.Literal t :: rest) →
      operation vm = (.ok .Jmp (.Literal t :: rest) none,
        { vm with program_counter := t })) ∧
    (∀ (vm : VirtualMachine) (addr : Nat),
      (applyEvent vm (.setProgramCounter addr)).program_counter = addr) := by
  refine ⟨fun vm h => ?_, decodeOperands_no_panic, fun vm w t rest hfetch hop hdec => ?_,
    fun vm addr => rfl⟩
  · unfold operation
    rw [List.get?_eq_none.mpr h]
  · unfold operation
    rw [hfetch]
    simp only [hop] at hdec ⊢
    simp [hdec, dereference]

theorem c10_witness :
    operation (init_from_sequence []) = (.panicked, init_from_sequence []) ∧
    decodeOperands [6, 100] 1 1 ≠ .panicked ∧
    operation (init_from_sequence [6, 100]) =
      (.ok .Jmp [.Literal 100] none,
        { init_from_sequence [6, 100] with program_counter := 100 }) :=
  ⟨c10_unchecked_fetch_and_jumps.1 (init_from_sequence []) (by decide),
   c10_unchecked_fetch_and_jumps.2.1 [6, 100] 1 1 (by decide),
   c10_unchecked_fetch_and_jumps.2.2.1 (init_from_sequence [6, 100]) 6 100 []
     (by decide) (by decide) (by decide)⟩

end Synacor
